import Mathlib

/-!
# Shallow embedding of `wynncraft-waypoint-utils.py`

The program loads JSON arrays of waypoint objects, optionally runs four
transform passes (radius deduplication, box filter, radial sort,
alphanumeric sort, order inversion) in a fixed order, and writes the result
as a JSON array.

Conventions of the embedding:
* Python dicts become ordered association lists (`List (String × Json)`);
  dict key access becomes `Except`-valued lookup raising `Err.keyError`.
* Coordinates are integers, following the data model (`location` holds
  integer-valued `x`, `y`, `z`); the deduplication radius, parsed by
  `type=float`, is modelled as an exact rational.
* The float computation `math.sqrt(...) <= radius` is modelled in exact
  arithmetic: for a nonnegative integer `d`, `Real.sqrt d ≤ r` iff
  `0 ≤ r ∧ d ≤ r²`, which is decidable over `ℚ`.
* Code that can raise returns `Except Err`; evaluation order of field
  accesses follows the source's loop order, so the same access fails first.
-/

namespace WaypointUtils

/-- JSON values as produced by `json.load`.  Numbers carry `Int`: the data
model fixes `x`, `y`, `z` to be integer-valued. -/
inductive Json where
  | null : Json
  | bool (b : Bool) : Json
  | num (n : Int) : Json
  | str (s : String) : Json
  | arr (elems : List Json) : Json
  | obj (fields : List (String × Json)) : Json

/-- A waypoint as loaded from an input file: a JSON object, i.e. an ordered
association list of fields (Python dicts preserve insertion order).  Besides
`name` and `location` it may carry arbitrary passthrough fields. -/
abbrev Waypoint := List (String × Json)

/-- `Location = tuple[int, int, int]` from the source. -/
abbrev Location := Int × Int × Int

/-- Errors raised by field access: `KeyError` for a missing dict key,
`TypeError` for a value of the wrong shape. -/
inductive Err where
  | keyError (key : String)
  | typeError
deriving DecidableEq

/-- Python dict subscription `d[k]`: raises `KeyError` when the key is
absent.  Dicts have unique keys, so first-match lookup agrees with Python. -/
def dictGet (d : List (String × Json)) (k : String) : Except Err Json :=
  match d.find? (fun p => p.1 == k) with
  | some p => .ok p.2
  | none => .error (.keyError k)

/-- `location_dict[key]` for a coordinate key: `KeyError` when the key is
missing.  A non-integer value would make the arithmetic that consumes the
coordinate raise `TypeError`; we surface that error here at extraction (on
inputs conforming to the data model the two behaviors coincide). -/
def coordGet (d : List (String × Json)) (k : String) : Except Err Int := do
  match ← dictGet d k with
  | .num n => .ok n
  | _ => .error .typeError

/-- `waypoint_location_tuple`: `waypoint['location']` followed by
`location_dict[key] for key in ('x', 'y', 'z')`.  Subscripting a non-dict
`location` value raises `TypeError`. -/
def waypoint_location_tuple (waypoint : Waypoint) : Except Err Location := do
  match ← dictGet waypoint "location" with
  | .obj location_dict => do
      let x ← coordGet location_dict "x"
      let y ← coordGet location_dict "y"
      let z ← coordGet location_dict "z"
      .ok (x, y, z)
  | _ => .error .typeError

/-- The sum of squared coordinate differences
`sum(i * i for i in (b - a for a, b in zip(waypoint1, waypoint2)))`.
`waypoint_distance` in the source is `math.sqrt` of this value. -/
def waypoint_sq_dist (waypoint1 waypoint2 : Location) : Int :=
  (waypoint2.1 - waypoint1.1) * (waypoint2.1 - waypoint1.1) +
  (waypoint2.2.1 - waypoint1.2.1) * (waypoint2.2.1 - waypoint1.2.1) +
  (waypoint2.2.2 - waypoint1.2.2) * (waypoint2.2.2 - waypoint1.2.2)

/-- `waypoint_distance`: the Euclidean distance
`math.sqrt(sum(i * i for i in vector))`, in exact real arithmetic. -/
noncomputable def waypoint_distance (waypoint1 waypoint2 : Location) : ℝ :=
  Real.sqrt (waypoint_sq_dist waypoint1 waypoint2)

/-- The comparison `dst > radius` from the filtering loop, decided in exact
arithmetic: for `d = waypoint_sq_dist l1 l2 ≥ 0`, `Real.sqrt d > r` iff
`r < 0 ∨ r * r < d` (see `dist_gt_iff`). -/
def dist_gt (l1 l2 : Location) (radius : ℚ) : Bool :=
  decide (radius < 0) ||
    decide ((radius * radius : ℚ) < (waypoint_sq_dist l1 l2 : ℚ))

/-- One axis of `waypoint_in_box`: `i <= max(a, b) and i >= min(a, b)`. -/
def axis_in_range (i a b : Int) : Bool :=
  decide (i ≤ max a b) && decide (min a b ≤ i)

/-- `waypoint_in_box`: `all(i <= max(a, b) and i >= min(a, b) for i, a, b in
zip(waypoint, bound1, bound2))`. -/
def waypoint_in_box (waypoint bound1 bound2 : Location) : Bool :=
  axis_in_range waypoint.1 bound1.1 bound2.1 &&
  axis_in_range waypoint.2.1 bound1.2.1 bound2.2.1 &&
  axis_in_range waypoint.2.2 bound1.2.2 bound2.2.2

/-- One verbose log line `found match: {location} -> {other_location}
({dst:0.2f} blocks distance)`, kept structured; the two-decimal float
formatting of the printed distance is not modelled. -/
structure MatchLog where
  location : Location
  other_location : Location
  sq_dist : Int
deriving DecidableEq

/-- The inner scan `for other_waypoint in waypoints[i:]` of the radius
filtering loop: walks the waypoints after the current one, skipping while
`dst > radius` (`continue`), and stops at the first one within the radius
(`break`), counting it as a match and, in verbose mode, logging it. -/
def scan_for_match (verbose : Bool) (radius : ℚ) (location : Location) :
    List Waypoint → Except Err (Bool × List MatchLog)
  | [] => .ok (false, [])
  | other_waypoint :: rest => do
      let other_location ← waypoint_location_tuple other_waypoint
      if dist_gt location other_location radius then
        scan_for_match verbose radius location rest
      else
        .ok (true,
          if verbose then
            [⟨location, other_location, waypoint_sq_dist location other_location⟩]
          else [])

/-- The outer loop `for i, waypoint in enumerate(waypoints, 1)` of the radius
filtering pass; the recursion argument plays `waypoints[i:]`, the slice
strictly after the current waypoint.  Returns
`(filtered_waypoints, matches, verbose log)`. -/
def radius_filter_loop (verbose : Bool) (radius : ℚ) :
    List Waypoint → Except Err (List Waypoint × Nat × List MatchLog)
  | [] => .ok ([], 0, [])
  | waypoint :: rest => do
      let location ← waypoint_location_tuple waypoint
      let (match_found, log₁) ← scan_for_match verbose radius location rest
      let (filtered, matches', log₂) ← radius_filter_loop verbose radius rest
      .ok (if match_found then filtered else waypoint :: filtered,
           (if match_found then 1 else 0) + matches', log₁ ++ log₂)

/-- The whole radius filtering pass, including the final `if matches:` guard:
when no match was found the original list object is kept (the content is the
same either way). -/
def radius_filter_pass (verbose : Bool) (radius : ℚ)
    (waypoints : List Waypoint) :
    Except Err (List Waypoint × Nat × List MatchLog) := do
  let (filtered_waypoints, matches', log) ← radius_filter_loop verbose radius waypoints
  .ok (if matches' ≠ 0 then filtered_waypoints else waypoints, matches', log)

/-- The box filtering list comprehension: keeps, in original order, the
waypoints whose extracted location passes `waypoint_in_box`; extraction
errors abort at the first offending waypoint. -/
def box_filter_pass (bound1 bound2 : Location) :
    List Waypoint → Except Err (List Waypoint)
  | [] => .ok []
  | waypoint :: rest => do
      let location ← waypoint_location_tuple waypoint
      let tail ← box_filter_pass bound1 bound2 rest
      .ok (if waypoint_in_box location bound1 bound2 then waypoint :: tail
           else tail)

/-- Key extraction for the radial sort: the sort key of each waypoint, in
list order, paired with the waypoint (`list.sort` evaluates `key=...` once
per element).  The stored key is the squared distance to the center; the
source's key is its float square root, and `Real.sqrt` is monotone, so the
induced order is the same. -/
def radial_keyed (center : Location) :
    List Waypoint → Except Err (List (Int × Waypoint))
  | [] => .ok []
  | waypoint :: rest => do
      let location ← waypoint_location_tuple waypoint
      let tail ← radial_keyed center rest
      .ok ((waypoint_sq_dist center location, waypoint) :: tail)

/-- The stable sort performed by `list.sort(key=...)`: each element is
decorated with its key, the pairs are sorted by the key component with the
stable `List.insertionSort` (Python's Timsort is stable), and the keys are
dropped by the caller. -/
def stable_sort_by_key {κ : Type} [LinearOrder κ] (kl : List (κ × Waypoint)) :
    List (κ × Waypoint) :=
  kl.insertionSort (fun p q => p.1 ≤ q.1)

/-- `waypoints.sort(key=lambda x: waypoint_distance(center,
waypoint_location_tuple(x)))`: a stable sort by distance to the center.
Python's Timsort is stable; `List.insertionSort` is the stable sort of the
embedding. -/
def radial_sort_pass (center : Location) (waypoints : List Waypoint) :
    Except Err (List Waypoint) := do
  let keyed ← radial_keyed center waypoints
  .ok ((stable_sort_by_key keyed).map (fun p => p.2))

/-- `waypoint["name"]` as used by the alphanumeric sort key: `KeyError` when
absent.  A non-string name would make the comparisons inside `sort` raise
`TypeError`; we surface that at key extraction (on inputs conforming to the
data model, where `name` is a string, the behaviors coincide). -/
def waypoint_name (waypoint : Waypoint) : Except Err String := do
  match ← dictGet waypoint "name" with
  | .str s => .ok s
  | _ => .error .typeError

/-- Key extraction for the alphanumeric sort, in list order. -/
def alpha_keyed : List Waypoint → Except Err (List (String × Waypoint))
  | [] => .ok []
  | waypoint :: rest => do
      let name ← waypoint_name waypoint
      let tail ← alpha_keyed rest
      .ok ((name, waypoint) :: tail)

/-- `waypoints.sort(key=lambda x: x["name"])`: a stable sort by name.
Lean's `String` order is lexicographic by code point, matching Python's
string comparison. -/
def alphanumeric_sort_pass (waypoints : List Waypoint) :
    Except Err (List Waypoint) := do
  let keyed ← alpha_keyed waypoints
  .ok ((stable_sort_by_key keyed).map (fun p => p.2))

/-- `waypoints = list(reversed(waypoints))`. -/
def invert_sort_pass (waypoints : List Waypoint) : List Waypoint :=
  waypoints.reverse

/-- The parsed command line.  `filter_radius` is `none` when
`--filter-radius` is absent: argparse's default is the int `0` and the guard
`args.filter_radius != 0` is then false.  When the flag is given, `nargs=1`
makes `args.filter_radius` the one-element list `[r]`, and `[r] != 0` is
true for every `r` — including `r = 0`, because a Python list never equals
an int — so the pass runs; hence `some r` for any given radius `r`. -/
structure Config where
  verbose : Bool := false
  filter_radius : Option ℚ := none
  filter_box : Option (Location × Location) := none
  sort_radial : Option Location := none
  sort_alphanumeric : Bool := false
  invert_sort : Bool := false

/-- `if args.filter_radius != 0:` — runs the radius filtering pass exactly
when the flag was given (see `Config.filter_radius`); the pipeline keeps the
filtered list and discards the match count and log. -/
def radius_stage (cfg : Config) (waypoints : List Waypoint) :
    Except Err (List Waypoint) :=
  match cfg.filter_radius with
  | none => .ok waypoints
  | some radius =>
      (radius_filter_pass cfg.verbose radius waypoints).map (fun t => t.1)

/-- `if args.filter_box is not None:` with `bound1 = args.filter_box[:3]`,
`bound2 = args.filter_box[3:]`. -/
def box_stage (cfg : Config) (waypoints : List Waypoint) :
    Except Err (List Waypoint) :=
  match cfg.filter_box with
  | none => .ok waypoints
  | some (bound1, bound2) => box_filter_pass bound1 bound2 waypoints

/-- `if args.sort_radial is not None:`. -/
def radial_stage (cfg : Config) (waypoints : List Waypoint) :
    Except Err (List Waypoint) :=
  match cfg.sort_radial with
  | none => .ok waypoints
  | some center => radial_sort_pass center waypoints

/-- `if args.sort_alphanumeric:`. -/
def alpha_stage (cfg : Config) (waypoints : List Waypoint) :
    Except Err (List Waypoint) :=
  if cfg.sort_alphanumeric then alphanumeric_sort_pass waypoints
  else .ok waypoints

/-- `if args.invert_sort:`. -/
def invert_stage (cfg : Config) (waypoints : List Waypoint) : List Waypoint :=
  if cfg.invert_sort then invert_sort_pass waypoints else waypoints

/-- The transform pipeline in its fixed order: radius filter, box filter,
radial sort, alphanumeric sort, inversion.  A failing pass aborts the run. -/
def run_passes (cfg : Config) (waypoints : List Waypoint) :
    Except Err (List Waypoint) := do
  let ws₁ ← radius_stage cfg waypoints
  let ws₂ ← box_stage cfg ws₁
  let ws₃ ← radial_stage cfg ws₂
  let ws₄ ← alpha_stage cfg ws₃
  .ok (invert_stage cfg ws₄)

/-- The input loader: `waypoints.extend(json.load(file))` over the input
files in command-line order, concatenating the parsed arrays. -/
def load_waypoints (inputs : List (List Waypoint)) : List Waypoint :=
  inputs.flatten

mutual

/-- Rendering of a JSON value to text, standing in for the standard
library serializer invoked by `json.dump(waypoints, output, indent=2)`.
The exact textual conventions (indentation, escapes) are abstracted; the
claims depend only on which value reaches the file. -/
def json_render : Json → String
  | .null => "null"
  | .bool b => if b then "true" else "false"
  | .num n => toString n
  | .str s => "\"" ++ s ++ "\""
  | .arr elems => "[" ++ json_render_list elems ++ "]"
  | .obj fields => "\x7b" ++ json_render_fields fields ++ "\x7d"

/-- Renders array elements, comma separated. -/
def json_render_list : List Json → String
  | [] => ""
  | [j] => json_render j
  | j :: rest => json_render j ++ ", " ++ json_render_list rest

/-- Renders object fields, comma separated. -/
def json_render_fields : List (String × Json) → String
  | [] => ""
  | [p] => "\"" ++ p.1 ++ "\": " ++ json_render p.2
  | p :: rest =>
      "\"" ++ p.1 ++ "\": " ++ json_render p.2 ++ ", " ++
        json_render_fields rest

end

/-- Serialization of the final collection as a JSON array of objects. -/
def json_dump (waypoints : List Waypoint) : String :=
  json_render (.arr (waypoints.map .obj))

/-- The output file's contents once the program has finished.  `--output`
uses `argparse.FileType('wt')`, which creates and truncates the file while
the arguments are parsed — before any input is read or any pass runs — so
the prior contents `_prev` are discarded unconditionally.  The serialized
collection is written only when every pass succeeded; on any error the run
aborts with the file left truncated. -/
def output_file_after_run (cfg : Config) (inputs : List (List Waypoint))
    (_prev : String) : String :=
  match run_passes cfg (load_waypoints inputs) with
  | .ok waypoints => json_dump waypoints
  | .error _ => ""

/-! ## Spec-side definitions

These mirror the wording of the specification; the theorems below compare
them with the code-side definitions above. -/

/-- Whether a second waypoint is within `radius` of the location `location`
(Euclidean distance `≤ radius`); `false` when the second waypoint's location
is unavailable. -/
def within_radius_loc (radius : ℚ) (location : Location) (w2 : Waypoint) :
    Bool :=
  match waypoint_location_tuple w2 with
  | .ok l2 => ! dist_gt location l2 radius
  | .error _ => false

/-- Whether two waypoints are within `radius` of each other; `false` when
either location is unavailable. -/
def within_radius (radius : ℚ) (w1 w2 : Waypoint) : Bool :=
  match waypoint_location_tuple w1 with
  | .ok l1 => within_radius_loc radius l1 w2
  | .error _ => false

/-- The deduplication decision rule as the specification words it: a
waypoint is kept iff no waypoint at a strictly greater index is within the
radius of it, and kept waypoints stay in their original relative order. -/
def spec_kept (radius : ℚ) : List Waypoint → List Waypoint
  | [] => []
  | w :: rest =>
      if rest.any (fun w2 => within_radius radius w w2) then
        spec_kept radius rest
      else w :: spec_kept radius rest

/-- The box-membership predicate as the specification words it: on each axis
independently, `min(corner1, corner2) ≤ coordinate ≤ max(corner1, corner2)`. -/
def spec_in_box (corner1 corner2 location : Location) : Prop :=
  (min corner1.1 corner2.1 ≤ location.1 ∧ location.1 ≤ max corner1.1 corner2.1) ∧
  (min corner1.2.1 corner2.2.1 ≤ location.2.1 ∧
    location.2.1 ≤ max corner1.2.1 corner2.2.1) ∧
  (min corner1.2.2 corner2.2.2 ≤ location.2.2 ∧
    location.2.2 ≤ max corner1.2.2 corner2.2.2)

/-- The box filter membership test as applied to a waypoint, `false` when
the location is unavailable. -/
def box_pred (bound1 bound2 : Location) (w : Waypoint) : Bool :=
  match waypoint_location_tuple w with
  | .ok l => waypoint_in_box l bound1 bound2
  | .error _ => false

/-- Total radial sort key: the squared distance from `center` to the
waypoint's location (junk value `0` when the location is unavailable; the
theorems only use it on waypoints whose location extracts). -/
def radial_key (center : Location) (w : Waypoint) : Int :=
  match waypoint_location_tuple w with
  | .ok l => waypoint_sq_dist center l
  | .error _ => 0

/-- Total alphanumeric sort key (junk value `""` when the name is
unavailable). -/
def name_key (w : Waypoint) : String :=
  match waypoint_name w with
  | .ok s => s
  | .error _ => ""

/-- A waypoint conforming to the data model: a string `name` field and a
`location` object with integer `x`, `y`, `z`. -/
def WellFormed (w : Waypoint) : Prop :=
  (∃ s, waypoint_name w = .ok s) ∧ (∃ l, waypoint_location_tuple w = .ok l)


/-! ## Facts about the distance comparison -/

/-- `dist_gt` decides the float comparison `dst > radius` of the source:
it is false exactly when the Euclidean distance is `≤ radius`. -/
lemma dist_gt_eq_false_iff (l1 l2 : Location) (radius : ℚ) :
    dist_gt l1 l2 radius = false ↔ waypoint_distance l1 l2 ≤ (radius : ℝ) := by
  have hd : (0 : ℝ) ≤ ((waypoint_sq_dist l1 l2 : ℤ) : ℝ) := by
    have : (0 : ℤ) ≤ waypoint_sq_dist l1 l2 := by
      unfold waypoint_sq_dist
      nlinarith [mul_self_nonneg (l2.1 - l1.1), mul_self_nonneg (l2.2.1 - l1.2.1),
        mul_self_nonneg (l2.2.2 - l1.2.2)]
    exact_mod_cast this
  rw [waypoint_distance, Real.sqrt_le_iff]
  simp only [dist_gt, Bool.or_eq_false_iff, decide_eq_false_iff_not, not_lt]
  constructor
  · rintro ⟨hr, hsq⟩
    refine ⟨by exact_mod_cast hr, ?_⟩
    have : ((waypoint_sq_dist l1 l2 : ℚ) : ℝ) ≤ ((radius * radius : ℚ) : ℝ) := by
      exact_mod_cast hsq
    calc ((waypoint_sq_dist l1 l2 : ℤ) : ℝ) = ((waypoint_sq_dist l1 l2 : ℚ) : ℝ) := by
          push_cast; ring
      _ ≤ ((radius * radius : ℚ) : ℝ) := this
      _ = (radius : ℝ) ^ 2 := by push_cast; ring
  · rintro ⟨hr, hsq⟩
    have hr' : (0 : ℚ) ≤ radius := by exact_mod_cast hr
    refine ⟨hr', ?_⟩
    have : ((waypoint_sq_dist l1 l2 : ℚ) : ℝ) ≤ ((radius * radius : ℚ) : ℝ) := by
      calc ((waypoint_sq_dist l1 l2 : ℚ) : ℝ)
          = ((waypoint_sq_dist l1 l2 : ℤ) : ℝ) := by push_cast; ring
        _ ≤ (radius : ℝ) ^ 2 := hsq
        _ = ((radius * radius : ℚ) : ℝ) := by push_cast; ring
    exact_mod_cast this

/-- `within_radius` agrees with the Euclidean-distance reading of the spec. -/
lemma within_radius_iff (radius : ℚ) (w1 w2 : Waypoint) (l1 l2 : Location)
    (h1 : waypoint_location_tuple w1 = .ok l1)
    (h2 : waypoint_location_tuple w2 = .ok l2) :
    (within_radius radius w1 w2 = true ↔
      waypoint_distance l1 l2 ≤ (radius : ℝ)) := by
  simp only [within_radius, within_radius_loc, h1, h2, Bool.not_eq_true']
  exact dist_gt_eq_false_iff l1 l2 radius

/-! ## The radius filtering pass implements the spec's decision rule -/

/-- With `location` the current waypoint's location, `within_radius` reduces
to `within_radius_loc`. -/
lemma within_radius_of_ok (radius : ℚ) (w : Waypoint) (l : Location)
    (h : waypoint_location_tuple w = .ok l) :
    within_radius radius w = within_radius_loc radius l := by
  funext w2
  rw [within_radius, h]

/-- The inner scan succeeds on waypoints with extractable locations and its
match flag is `any` of the within-radius test over the scanned suffix. -/
lemma scan_for_match_found (verbose : Bool) (radius : ℚ) (location : Location)
    (rest : List Waypoint)
    (h : ∀ w ∈ rest, ∃ l, waypoint_location_tuple w = .ok l) :
    ∃ log, scan_for_match verbose radius location rest =
      .ok (rest.any (within_radius_loc radius location), log) := by
  induction rest with
  | nil => exact ⟨[], rfl⟩
  | cons w rest ih =>
      obtain ⟨l, hl⟩ := h w (List.mem_cons_self _ _)
      obtain ⟨log, hlog⟩ := ih (fun w' hw' => h w' (List.mem_cons_of_mem _ hw'))
      by_cases hd : dist_gt location l radius
      · refine ⟨log, ?_⟩
        simp [scan_for_match, hl, hd, hlog, within_radius_loc, bind, Except.bind]
      · refine ⟨if verbose then [⟨location, l, waypoint_sq_dist location l⟩] else [], ?_⟩
        simp [scan_for_match, hl, hd, within_radius_loc, bind, Except.bind]

/-- The outer loop returns exactly the spec's kept list, and a zero match
count forces the kept list to be the input itself. -/
lemma radius_filter_loop_spec (verbose : Bool) (radius : ℚ)
    (ws : List Waypoint)
    (h : ∀ w ∈ ws, ∃ l, waypoint_location_tuple w = .ok l) :
    ∃ m log, radius_filter_loop verbose radius ws =
        .ok (spec_kept radius ws, m, log) ∧
      (m = 0 → spec_kept radius ws = ws) := by
  induction ws with
  | nil => exact ⟨0, [], rfl, fun _ => rfl⟩
  | cons w rest ih =>
      obtain ⟨l, hl⟩ := h w (List.mem_cons_self _ _)
      have hrest := fun w' hw' => h w' (List.mem_cons_of_mem _ hw')
      obtain ⟨m, log, hloop, hm⟩ := ih hrest
      obtain ⟨slog, hscan⟩ := scan_for_match_found verbose radius l rest hrest
      have hany : rest.any (within_radius radius w) =
          rest.any (within_radius_loc radius l) := by
        rw [within_radius_of_ok radius w l hl]
      by_cases hfound : rest.any (within_radius radius w) = true
      · have hfound' : rest.any (within_radius_loc radius l) = true := hany ▸ hfound
        refine ⟨1 + m, slog ++ log, ?_, ?_⟩
        · simp [radius_filter_loop, hl, hscan, hloop, hfound', spec_kept, hfound,
            bind, Except.bind]
        · omega
      · have hfound0 : rest.any (within_radius radius w) = false :=
          Bool.not_eq_true _ ▸ hfound
        have hfound' : rest.any (within_radius_loc radius l) = false := hany ▸ hfound0
        refine ⟨m, slog ++ log, ?_, ?_⟩
        · simp [radius_filter_loop, hl, hscan, hloop, hfound', spec_kept, hfound0,
            bind, Except.bind]
        · intro hm0
          simp [spec_kept, hfound0, hm hm0]

/-- The whole pass (including the `if matches:` guard) returns the spec's
kept list. -/
lemma radius_filter_pass_spec (verbose : Bool) (radius : ℚ)
    (ws : List Waypoint)
    (h : ∀ w ∈ ws, ∃ l, waypoint_location_tuple w = .ok l) :
    (radius_filter_pass verbose radius ws).map (fun t => t.1) =
      .ok (spec_kept radius ws) := by
  obtain ⟨m, log, hloop, hm⟩ := radius_filter_loop_spec verbose radius ws h
  by_cases hm0 : m = 0
  · simp [radius_filter_pass, hloop, hm0, hm hm0, bind, Except.bind, Except.map]
  · simp [radius_filter_pass, hloop, hm0, bind, Except.bind, Except.map]

/-- **C1.** For every input waypoint collection (with extractable locations)
and radius `R`, the radius deduplication pass keeps a waypoint at index `i`
iff no waypoint at a strictly greater index is within Euclidean distance
`≤ R` of it (inclusive boundary), and the kept waypoints appear in their
original relative order: the pass returns exactly `spec_kept`, whose
within-radius test is the inclusive Euclidean comparison. -/
theorem radius_dedup_keep_rule (verbose : Bool) (radius : ℚ)
    (waypoints : List Waypoint)
    (h : ∀ w ∈ waypoints, ∃ l, waypoint_location_tuple w = .ok l) :
    (radius_filter_pass verbose radius waypoints).map (fun t => t.1) =
      .ok (spec_kept radius waypoints) ∧
    (∀ w1 w2 l1 l2, waypoint_location_tuple w1 = .ok l1 →
      waypoint_location_tuple w2 = .ok l2 →
      (within_radius radius w1 w2 = true ↔
        waypoint_distance l1 l2 ≤ (radius : ℝ))) :=
  ⟨radius_filter_pass_spec verbose radius waypoints h,
   fun w1 w2 l1 l2 h1 h2 => within_radius_iff radius w1 w2 l1 l2 h1 h2⟩

/-- `{"name": "A", "location": {"x": 0, "y": 0, "z": 0}}` from the spec's
concrete scenario. -/
def waypointA : Waypoint :=
  [("name", .str "A"),
   ("location", .obj [("x", .num 0), ("y", .num 0), ("z", .num 0)])]

/-- `{"name": "B", "location": {"x": 1, "y": 0, "z": 0}}` from the spec's
concrete scenario. -/
def waypointB : Waypoint :=
  [("name", .str "B"),
   ("location", .obj [("x", .num 1), ("y", .num 0), ("z", .num 0)])]

/-- Witness for C1: on `[A, B]` the pass keeps only `B` with radius `2`, and
both waypoints with radius `0.5`. -/
theorem radius_dedup_keep_rule_witness :
    (∀ w ∈ [waypointA, waypointB], ∃ l, waypoint_location_tuple w = .ok l) ∧
    (radius_filter_pass false 2 [waypointA, waypointB]).map (fun t => t.1) =
      .ok [waypointB] ∧
    (radius_filter_pass false (1/2) [waypointA, waypointB]).map (fun t => t.1) =
      .ok [waypointA, waypointB] := by
  have hA : waypoint_location_tuple waypointA = .ok (0, 0, 0) := rfl
  have hB : waypoint_location_tuple waypointB = .ok (1, 0, 0) := rfl
  have h : ∀ w ∈ [waypointA, waypointB], ∃ l, waypoint_location_tuple w = .ok l := by
    intro w hw
    rcases List.mem_cons.mp hw with h1 | hw
    · exact ⟨(0, 0, 0), h1 ▸ hA⟩
    · rcases List.mem_cons.mp hw with h2 | hw
      · exact ⟨(1, 0, 0), h2 ▸ hB⟩
      · simp at hw
  refine ⟨h, ?_, ?_⟩
  · rw [(radius_dedup_keep_rule false 2 [waypointA, waypointB] h).1]
    have hw2 : within_radius 2 waypointA waypointB = true := by
      simp only [within_radius, within_radius_loc, hA, hB, dist_gt,
        waypoint_sq_dist, Bool.not_eq_true', Bool.or_eq_false_iff,
        decide_eq_false_iff_not, not_lt]
      norm_num
    simp [spec_kept, hw2]
  · rw [(radius_dedup_keep_rule false (1/2) [waypointA, waypointB] h).1]
    have hw2 : within_radius 2⁻¹ waypointA waypointB = false := by
      simp only [within_radius, within_radius_loc, hA, hB, dist_gt,
        waypoint_sq_dist, Bool.not_eq_false', Bool.or_eq_true_iff,
        decide_eq_true_eq]
      norm_num
    simp [spec_kept, hw2]

/-! ## The box filtering pass -/

/-- Swapping the bounds of one axis test changes nothing. -/
lemma axis_in_range_swap (i a b : Int) : axis_in_range i a b = axis_in_range i b a := by
  unfold axis_in_range
  rw [max_comm, min_comm]

/-- Swapping the two corners changes nothing in the box membership test. -/
lemma waypoint_in_box_swap (l bound1 bound2 : Location) :
    waypoint_in_box l bound1 bound2 = waypoint_in_box l bound2 bound1 := by
  unfold waypoint_in_box
  rw [axis_in_range_swap l.1 bound1.1 bound2.1,
    axis_in_range_swap l.2.1 bound1.2.1 bound2.2.1,
    axis_in_range_swap l.2.2 bound1.2.2 bound2.2.2]

/-- The box membership test is exactly the spec's min/max characterization. -/
lemma waypoint_in_box_iff (l bound1 bound2 : Location) :
    waypoint_in_box l bound1 bound2 = true ↔ spec_in_box bound1 bound2 l := by
  simp only [waypoint_in_box, axis_in_range, spec_in_box, Bool.and_eq_true,
    decide_eq_true_eq]
  tauto

/-- A successful box filter run forces every location to extract and returns
the `box_pred` filtering of the input. -/
lemma box_filter_pass_ok (bound1 bound2 : Location) (ws ws' : List Waypoint)
    (h : box_filter_pass bound1 bound2 ws = .ok ws') :
    (∀ w ∈ ws, ∃ l, waypoint_location_tuple w = .ok l) ∧
      ws' = ws.filter (box_pred bound1 bound2) := by
  induction ws generalizing ws' with
  | nil =>
      refine ⟨by simp, ?_⟩
      simpa [box_filter_pass] using h.symm
  | cons w rest ih =>
      cases hl : waypoint_location_tuple w with
      | error e => simp [box_filter_pass, hl, bind, Except.bind] at h
      | ok l =>
          cases htail : box_filter_pass bound1 bound2 rest with
          | error e => simp [box_filter_pass, hl, htail, bind, Except.bind] at h
          | ok tail =>
              obtain ⟨hall, htl⟩ := ih tail htail
              simp only [box_filter_pass, hl, htail, bind, Except.bind,
                Except.ok.injEq] at h
              refine ⟨?_, ?_⟩
              · intro w' hw'
                rcases List.mem_cons.mp hw' with h1 | h2
                · exact ⟨l, h1 ▸ hl⟩
                · exact hall w' h2
              · rw [← h, htl, List.filter_cons]
                have : box_pred bound1 bound2 w = waypoint_in_box l bound1 bound2 := by
                  rw [box_pred, hl]
                rw [this]

/-- When every location extracts, the box filter succeeds and returns the
`box_pred` filtering of the input. -/
lemma box_filter_pass_of_locs_ok (bound1 bound2 : Location) (ws : List Waypoint)
    (h : ∀ w ∈ ws, ∃ l, waypoint_location_tuple w = .ok l) :
    box_filter_pass bound1 bound2 ws = .ok (ws.filter (box_pred bound1 bound2)) := by
  induction ws with
  | nil => rfl
  | cons w rest ih =>
      obtain ⟨l, hl⟩ := h w (List.mem_cons_self _ _)
      have htail := ih (fun w' hw' => h w' (List.mem_cons_of_mem _ hw'))
      have hpred : box_pred bound1 bound2 w = waypoint_in_box l bound1 bound2 := by
        rw [box_pred, hl]
      simp only [box_filter_pass, hl, htail, bind, Except.bind, List.filter_cons, hpred]

/-- Swapping the two corners changes nothing in the whole pass, including on
inputs where extraction fails. -/
lemma box_filter_pass_swap (bound1 bound2 : Location) (ws : List Waypoint) :
    box_filter_pass bound1 bound2 ws = box_filter_pass bound2 bound1 ws := by
  induction ws with
  | nil => rfl
  | cons w rest ih =>
      cases hl : waypoint_location_tuple w with
      | error e => simp [box_filter_pass, hl, bind, Except.bind]
      | ok l =>
          simp [box_filter_pass, hl, bind, Except.bind, ih,
            waypoint_in_box_swap l bound1 bound2]

/-- **C4.** The box filter keeps exactly the waypoints whose location
satisfies, on each axis independently,
`min(corner1, corner2) ≤ coordinate ≤ max(corner1, corner2)`; its output is
the subsequence of the input satisfying this predicate in original order
(`List.filter`), and swapping the two corners yields the identical result. -/
theorem box_filter_minmax_rule (bound1 bound2 : Location) (ws : List Waypoint)
    (h : ∀ w ∈ ws, ∃ l, waypoint_location_tuple w = .ok l) :
    box_filter_pass bound1 bound2 ws = .ok (ws.filter (box_pred bound1 bound2)) ∧
    (∀ w l, waypoint_location_tuple w = .ok l →
      (box_pred bound1 bound2 w = true ↔ spec_in_box bound1 bound2 l)) ∧
    box_filter_pass bound1 bound2 ws = box_filter_pass bound2 bound1 ws := by
  refine ⟨box_filter_pass_of_locs_ok bound1 bound2 ws h, ?_, box_filter_pass_swap bound1 bound2 ws⟩
  intro w l hl
  rw [box_pred, hl]
  exact waypoint_in_box_iff l bound1 bound2

/-- `{"name": "far", "location": {"x": 5, "y": 5, "z": 5}}`: a waypoint
outside the concrete boxes used by the witnesses. -/
def waypointFar : Waypoint :=
  [("name", .str "far"),
   ("location", .obj [("x", .num 5), ("y", .num 5), ("z", .num 5)])]

/-- Witness for C4: the box `(0,0,0)..(2,2,2)` keeps `A` and `B` but not the
far waypoint, in original order, and with the corners swapped as well. -/
theorem box_filter_minmax_rule_witness :
    (∀ w ∈ [waypointA, waypointFar, waypointB], ∃ l, waypoint_location_tuple w = .ok l) ∧
    box_filter_pass (0, 0, 0) (2, 2, 2) [waypointA, waypointFar, waypointB] =
      .ok [waypointA, waypointB] ∧
    box_filter_pass (0, 0, 0) (2, 2, 2) [waypointA, waypointFar, waypointB] =
      box_filter_pass (2, 2, 2) (0, 0, 0) [waypointA, waypointFar, waypointB] ∧
    spec_in_box (0, 0, 0) (2, 2, 2) (1, 0, 0) := by
  have h : ∀ w ∈ [waypointA, waypointFar, waypointB], ∃ l, waypoint_location_tuple w = .ok l := by
    intro w hw
    rcases List.mem_cons.mp hw with h1 | hw
    · exact ⟨(0, 0, 0), h1 ▸ rfl⟩
    rcases List.mem_cons.mp hw with h2 | hw
    · exact ⟨(5, 5, 5), h2 ▸ rfl⟩
    rcases List.mem_cons.mp hw with h3 | hw
    · exact ⟨(1, 0, 0), h3 ▸ rfl⟩
    · simp at hw
  have hmain := box_filter_minmax_rule (0, 0, 0) (2, 2, 2) [waypointA, waypointFar, waypointB] h
  refine ⟨h, ?_, hmain.2.2, ?_⟩
  · rw [hmain.1]
    rfl
  · exact (hmain.2.1 waypointB (1, 0, 0) rfl).mp rfl

/-- **C8.** Applying the box filter with the same two corner triples twice
yields the same collection as applying it once. -/
theorem box_filter_idempotent (bound1 bound2 : Location) (ws ws' : List Waypoint)
    (h : box_filter_pass bound1 bound2 ws = .ok ws') :
    box_filter_pass bound1 bound2 ws' = .ok ws' := by
  obtain ⟨hok, hws'⟩ := box_filter_pass_ok bound1 bound2 ws ws' h
  have hok' : ∀ w ∈ ws', ∃ l, waypoint_location_tuple w = .ok l := by
    intro w hw
    exact hok w (List.mem_of_mem_filter (hws' ▸ hw))
  rw [box_filter_pass_of_locs_ok bound1 bound2 ws' hok']
  congr 1
  conv_lhs => rw [hws']
  rw [List.filter_eq_self.mpr, ← hws']
  intro a ha
  exact List.of_mem_filter ha

/-- Witness for C8: a concrete run of the box filter, then a second run on
its output, returning it unchanged. -/
theorem box_filter_idempotent_witness :
    box_filter_pass (0, 0, 0) (2, 2, 2) [waypointFar, waypointB] = .ok [waypointB] ∧
    box_filter_pass (0, 0, 0) (2, 2, 2) [waypointB] = .ok [waypointB] :=
  ⟨rfl, box_filter_idempotent (0, 0, 0) (2, 2, 2) [waypointFar, waypointB] [waypointB] rfl⟩

/-! ## Stable sorting by a key

Both sort passes decorate each waypoint with its sort key (in list order,
as Python's `list.sort(key=...)` does), sort the pairs by the key component
with the stable `List.insertionSort`, and drop the keys.  The lemmas here
are generic in the key type. -/

section StableSort

variable {κ : Type} [LinearOrder κ]

lemma key_le_total : IsTotal (κ × Waypoint) (fun p q => p.1 ≤ q.1) :=
  ⟨fun p q => le_total p.1 q.1⟩

lemma key_le_trans : IsTrans (κ × Waypoint) (fun p q => p.1 ≤ q.1) :=
  ⟨fun _ _ _ hab hbc => le_trans hab hbc⟩

/-- Dropping the keys of the sorted decorated list permutes the input. -/
lemma keyed_sort_perm (key : Waypoint → κ) (ws : List Waypoint) :
    ((stable_sort_by_key (ws.map (fun w => (key w, w)))).map (fun p => p.2)).Perm ws := by
  unfold stable_sort_by_key
  have h1 := List.perm_insertionSort (fun p q : κ × Waypoint => p.1 ≤ q.1) (ws.map (fun w => (key w, w)))
  have h2 := h1.map (fun p : κ × Waypoint => p.2)
  simpa [Function.comp_def] using h2

/-- Dropping the keys of the sorted decorated list yields a list that is
pairwise ascending in the key. -/
lemma keyed_sort_pairwise (key : Waypoint → κ) (ws : List Waypoint) :
    ((stable_sort_by_key (ws.map (fun w => (key w, w)))).map (fun p => p.2)).Pairwise
      (fun w1 w2 => key w1 ≤ key w2) := by
  unfold stable_sort_by_key
  have hs := @List.sorted_insertionSort (κ × Waypoint) (fun p q => p.1 ≤ q.1) _
    key_le_total key_le_trans (ws.map (fun w => (key w, w)))
  rw [List.pairwise_map]
  have hmem : ∀ p ∈ (ws.map (fun w => (key w, w))).insertionSort
      (fun p q => p.1 ≤ q.1), p.1 = key p.2 := by
    intro p hp
    have : p ∈ ws.map (fun w => (key w, w)) :=
      (List.perm_insertionSort (fun p q : κ × Waypoint => p.1 ≤ q.1) _).mem_iff.mp hp
    obtain ⟨w, _, hw⟩ := List.mem_map.mp this
    rw [← hw]
  refine hs.imp_of_mem ?_
  intro p q hp hq hpq
  rw [← hmem p hp, ← hmem q hq]
  exact hpq

/-- Stability: for every key value, the sorted list restricted to the
waypoints with that key equals the input so restricted — equal keys keep
their original relative order. -/
lemma keyed_sort_stable [DecidableEq κ] (key : Waypoint → κ) (ws : List Waypoint) (k : κ) :
    ((stable_sort_by_key (ws.map (fun w => (key w, w)))).map (fun p => p.2)).filter
        (fun w => decide (key w = k)) =
      ws.filter (fun w => decide (key w = k)) := by
  unfold stable_sort_by_key
  set kl := ws.map (fun w => (key w, w)) with hkl
  set p : (κ × Waypoint) → Bool := fun q => decide (q.1 = k) with hp
  have hmemkl : ∀ q ∈ kl, q.1 = key q.2 := by
    intro q hq
    obtain ⟨w, _, hw⟩ := List.mem_map.mp hq
    rw [← hw]
  have hmemsorted : ∀ q ∈ kl.insertionSort (fun p q => p.1 ≤ q.1), q.1 = key q.2 := by
    intro q hq
    exact hmemkl q ((List.perm_insertionSort (fun p q : κ × Waypoint => p.1 ≤ q.1) kl).mem_iff.mp hq)
  have hc_pairwise : (kl.filter p).Pairwise (fun p q => p.1 ≤ q.1) := by
    apply List.pairwise_of_forall_mem_list
    intro a ha b hb
    have ha' : a.1 = k := by simpa [hp] using List.of_mem_filter ha
    have hb' : b.1 = k := by simpa [hp] using List.of_mem_filter hb
    show a.1 ≤ b.1
    rw [ha', hb']
  have hc_sub : List.Sublist (kl.filter p) (kl.insertionSort (fun p q => p.1 ≤ q.1)) :=
    List.sublist_insertionSort hc_pairwise (List.filter_sublist kl)
  have hc_sub' : List.Sublist (kl.filter p) ((kl.insertionSort (fun p q => p.1 ≤ q.1)).filter p) := by
    have := hc_sub.filter p
    rwa [List.filter_filter, show ((fun q => p q && p q) : (κ × Waypoint) → Bool) = p by
      funext q; rw [Bool.and_self]] at this
  have hperm : ((kl.insertionSort (fun p q => p.1 ≤ q.1)).filter p).Perm (kl.filter p) :=
    (List.perm_insertionSort (fun p q : κ × Waypoint => p.1 ≤ q.1) kl).filter p
  have hfilter_eq : (kl.insertionSort (fun p q => p.1 ≤ q.1)).filter p = kl.filter p :=
    ((hc_sub'.eq_of_length hperm.length_eq.symm)).symm
  calc ((kl.insertionSort (fun p q => p.1 ≤ q.1)).map (fun q => q.2)).filter (fun w => decide (key w = k))
      = ((kl.insertionSort (fun p q => p.1 ≤ q.1)).filter
          ((fun w => decide (key w = k)) ∘ (fun q : κ × Waypoint => q.2))).map
          (fun q => q.2) := by
        rw [List.filter_map]
    _ = ((kl.insertionSort (fun p q => p.1 ≤ q.1)).filter p).map (fun q => q.2) := by
        congr 1
        apply List.filter_congr
        intro q hq
        simp only [Function.comp, hp, decide_eq_decide]
        rw [hmemsorted q hq]
    _ = (kl.filter p).map (fun q => q.2) := by rw [hfilter_eq]
    _ = ws.filter (fun w => decide (key w = k)) := by
        rw [hkl, hp]
        rw [List.filter_map]
        calc ((ws.filter ((fun q : κ × Waypoint => decide (q.1 = k)) ∘
                (fun w => (key w, w)))).map (fun w => (key w, w))).map (fun q => q.2)
            = ws.filter ((fun q : κ × Waypoint => decide (q.1 = k)) ∘
                (fun w => (key w, w))) := by simp [Function.comp_def]
          _ = ws.filter (fun w => decide (key w = k)) := rfl

end StableSort

/-! ## The sort passes -/

/-- A successful radial key extraction forces every location to extract and
returns the input decorated with its keys. -/
lemma radial_keyed_ok (center : Location) (ws : List Waypoint)
    (kl : List (Int × Waypoint)) (h : radial_keyed center ws = .ok kl) :
    kl = ws.map (fun w => (radial_key center w, w)) ∧
      ∀ w ∈ ws, ∃ l, waypoint_location_tuple w = .ok l := by
  induction ws generalizing kl with
  | nil =>
      refine ⟨?_, by simp⟩
      simpa [radial_keyed] using h.symm
  | cons w rest ih =>
      cases hl : waypoint_location_tuple w with
      | error e => simp [radial_keyed, hl, bind, Except.bind] at h
      | ok l =>
          cases htail : radial_keyed center rest with
          | error e => simp [radial_keyed, hl, htail, bind, Except.bind] at h
          | ok tail =>
              obtain ⟨htl, hall⟩ := ih tail htail
              simp only [radial_keyed, hl, htail, bind, Except.bind,
                Except.ok.injEq] at h
              have hkey : radial_key center w = waypoint_sq_dist center l := by
                simp only [radial_key, hl]
              refine ⟨?_, ?_⟩
              · rw [← h, htl, List.map_cons, hkey]
              · intro w' hw'
                rcases List.mem_cons.mp hw' with h1 | h2
                · exact ⟨l, h1 ▸ hl⟩
                · exact hall w' h2

/-- When every location extracts, the radial key extraction succeeds. -/
lemma radial_keyed_of_ok (center : Location) (ws : List Waypoint)
    (h : ∀ w ∈ ws, ∃ l, waypoint_location_tuple w = .ok l) :
    radial_keyed center ws = .ok (ws.map (fun w => (radial_key center w, w))) := by
  induction ws with
  | nil => rfl
  | cons w rest ih =>
      obtain ⟨l, hl⟩ := h w (List.mem_cons_self _ _)
      have htail := ih (fun w' hw' => h w' (List.mem_cons_of_mem _ hw'))
      have hkey : radial_key center w = waypoint_sq_dist center l := by
        simp only [radial_key, hl]
      simp [radial_keyed, hl, htail, bind, Except.bind, hkey]

/-- A successful alphanumeric key extraction forces every name to extract
and returns the input decorated with its keys. -/
lemma alpha_keyed_ok (ws : List Waypoint) (kl : List (String × Waypoint))
    (h : alpha_keyed ws = .ok kl) :
    kl = ws.map (fun w => (name_key w, w)) ∧
      ∀ w ∈ ws, ∃ s, waypoint_name w = .ok s := by
  induction ws generalizing kl with
  | nil =>
      refine ⟨?_, by simp⟩
      simpa [alpha_keyed] using h.symm
  | cons w rest ih =>
      cases hn : waypoint_name w with
      | error e => simp [alpha_keyed, hn, bind, Except.bind] at h
      | ok name =>
          cases htail : alpha_keyed rest with
          | error e => simp [alpha_keyed, hn, htail, bind, Except.bind] at h
          | ok tail =>
              obtain ⟨htl, hall⟩ := ih tail htail
              simp only [alpha_keyed, hn, htail, bind, Except.bind,
                Except.ok.injEq] at h
              have hkey : name_key w = name := by
                simp only [name_key, hn]
              refine ⟨?_, ?_⟩
              · rw [← h, htl, List.map_cons, hkey]
              · intro w' hw'
                rcases List.mem_cons.mp hw' with h1 | h2
                · exact ⟨name, h1 ▸ hn⟩
                · exact hall w' h2

/-- When every name extracts, the alphanumeric key extraction succeeds. -/
lemma alpha_keyed_of_ok (ws : List Waypoint)
    (h : ∀ w ∈ ws, ∃ s, waypoint_name w = .ok s) :
    alpha_keyed ws = .ok (ws.map (fun w => (name_key w, w))) := by
  induction ws with
  | nil => rfl
  | cons w rest ih =>
      obtain ⟨name, hn⟩ := h w (List.mem_cons_self _ _)
      have htail := ih (fun w' hw' => h w' (List.mem_cons_of_mem _ hw'))
      have hkey : name_key w = name := by
        simp only [name_key, hn]
      simp [alpha_keyed, hn, htail, bind, Except.bind, hkey]

/-- A successful radial sort run is the stable key sort of its input. -/
lemma radial_sort_pass_ok (center : Location) (ws sorted : List Waypoint)
    (h : radial_sort_pass center ws = .ok sorted) :
    sorted = (stable_sort_by_key
      (ws.map (fun w => (radial_key center w, w)))).map (fun p => p.2) := by
  cases hk : radial_keyed center ws with
  | error e => simp [radial_sort_pass, hk, bind, Except.bind] at h
  | ok kl =>
      obtain ⟨hkl, _⟩ := radial_keyed_ok center ws kl hk
      simp only [radial_sort_pass, hk, bind, Except.bind, Except.ok.injEq] at h
      rw [← h, hkl]

/-- A successful alphanumeric sort run is the stable key sort of its input. -/
lemma alphanumeric_sort_pass_ok (ws sorted : List Waypoint)
    (h : alphanumeric_sort_pass ws = .ok sorted) :
    sorted = (stable_sort_by_key
      (ws.map (fun w => (name_key w, w)))).map (fun p => p.2) := by
  cases hk : alpha_keyed ws with
  | error e => simp [alphanumeric_sort_pass, hk, bind, Except.bind] at h
  | ok kl =>
      obtain ⟨hkl, _⟩ := alpha_keyed_ok ws kl hk
      simp only [alphanumeric_sort_pass, hk, bind, Except.bind,
        Except.ok.injEq] at h
      rw [← h, hkl]

/-- **C6.** Each sort pass produces a permutation of its input (nothing
dropped or duplicated): the radial sort is ordered by ascending Euclidean
distance to the reference point and the alphanumeric sort ascending by the
`name` string, and both are stable — waypoints with equal sort key keep
their prior relative order (their filtered subsequences are unchanged). -/
theorem sort_passes_stable (center : Location) (ws : List Waypoint) :
    (∀ sorted, radial_sort_pass center ws = .ok sorted →
      sorted.Perm ws ∧
      sorted.Pairwise (fun w1 w2 => ∀ l1 l2,
        waypoint_location_tuple w1 = .ok l1 →
        waypoint_location_tuple w2 = .ok l2 →
        waypoint_distance center l1 ≤ waypoint_distance center l2) ∧
      (∀ k : Int, sorted.filter (fun w => decide (radial_key center w = k)) =
        ws.filter (fun w => decide (radial_key center w = k)))) ∧
    (∀ sorted, alphanumeric_sort_pass ws = .ok sorted →
      sorted.Perm ws ∧
      sorted.Pairwise (fun w1 w2 => ∀ s1 s2,
        waypoint_name w1 = .ok s1 → waypoint_name w2 = .ok s2 → s1 ≤ s2) ∧
      (∀ k : String, sorted.filter (fun w => decide (name_key w = k)) =
        ws.filter (fun w => decide (name_key w = k)))) := by
  constructor
  · intro sorted h
    rw [radial_sort_pass_ok center ws sorted h]
    refine ⟨keyed_sort_perm _ ws, ?_, fun k => keyed_sort_stable _ ws k⟩
    refine (keyed_sort_pairwise (radial_key center) ws).imp ?_
    intro w1 w2 hk l1 l2 h1 h2
    have e1 : radial_key center w1 = waypoint_sq_dist center l1 := by
      simp only [radial_key, h1]
    have e2 : radial_key center w2 = waypoint_sq_dist center l2 := by
      simp only [radial_key, h2]
    rw [e1, e2] at hk
    unfold waypoint_distance
    apply Real.sqrt_le_sqrt
    exact_mod_cast hk
  · intro sorted h
    rw [alphanumeric_sort_pass_ok ws sorted h]
    refine ⟨keyed_sort_perm _ ws, ?_, fun k => keyed_sort_stable _ ws k⟩
    refine (keyed_sort_pairwise name_key ws).imp ?_
    intro w1 w2 hk s1 s2 h1 h2
    have e1 : name_key w1 = s1 := by simp only [name_key, h1]
    have e2 : name_key w2 = s2 := by simp only [name_key, h2]
    rwa [e1, e2] at hk

/-- Witness for C6: concrete runs of both sort passes on `[B, A]`, each
returning `[A, B]`, with the permutation and stability conclusions drawn
from the theorem. -/
theorem sort_passes_stable_witness :
    (radial_sort_pass (0, 0, 0) [waypointB, waypointA] = .ok [waypointA, waypointB] ∧
      List.Perm [waypointA, waypointB] [waypointB, waypointA]) ∧
    (alphanumeric_sort_pass [waypointB, waypointA] = .ok [waypointA, waypointB] ∧
      ∀ k : String, [waypointA, waypointB].filter (fun w => decide (name_key w = k)) =
        [waypointB, waypointA].filter (fun w => decide (name_key w = k))) := by
  have hr : radial_sort_pass (0, 0, 0) [waypointB, waypointA] = .ok [waypointA, waypointB] := by
    rfl
  have ha : alphanumeric_sort_pass [waypointB, waypointA] = .ok [waypointA, waypointB] := by
    have hba : ¬ (("B" : String) ≤ "A") := by
      rw [String.le_iff_toList_le]
      decide
    simp [alphanumeric_sort_pass, alpha_keyed, waypoint_name, waypointA,
      waypointB, dictGet, bind, Except.bind, stable_sort_by_key,
      List.insertionSort, List.orderedInsert, hba]
  exact ⟨⟨hr, ((sort_passes_stable (0, 0, 0) [waypointB, waypointA]).1
      [waypointA, waypointB] hr).1⟩,
    ⟨ha, ((sort_passes_stable (0, 0, 0) [waypointB, waypointA]).2
      [waypointA, waypointB] ha).2.2⟩⟩

/-! ## Inversion -/

/-- **C9.** Applying the order-inversion pass twice restores the original
order, and a single inversion is a permutation: no elements are dropped and
— waypoints being immutable values — no fields are mutated. -/
theorem invert_sort_involutive (ws : List Waypoint) :
    invert_sort_pass (invert_sort_pass ws) = ws ∧
      (invert_sort_pass ws).Perm ws :=
  ⟨by simp [invert_sort_pass], by simp [invert_sort_pass, List.reverse_perm]⟩

/-! ## The verbose flag influences only the log -/

/-- The inner scan's error and match flag do not depend on `verbose`; only
the log does. -/
lemma scan_for_match_shape (radius : ℚ) (location : Location)
    (rest : List Waypoint) :
    (∃ e, scan_for_match true radius location rest = .error e ∧
      scan_for_match false radius location rest = .error e) ∨
    (∃ b log₁ log₂, scan_for_match true radius location rest = .ok (b, log₁) ∧
      scan_for_match false radius location rest = .ok (b, log₂)) := by
  induction rest with
  | nil => exact Or.inr ⟨false, [], [], rfl, rfl⟩
  | cons w rest ih =>
      cases hl : waypoint_location_tuple w with
      | error e =>
          refine Or.inl ⟨e, ?_, ?_⟩ <;>
            simp [scan_for_match, hl, bind, Except.bind]
      | ok l =>
          by_cases hd : dist_gt location l radius
          · rcases ih with ⟨e, h1, h2⟩ | ⟨b, log₁, log₂, h1, h2⟩
            · refine Or.inl ⟨e, ?_, ?_⟩ <;>
                simp [scan_for_match, hl, hd, bind, Except.bind, h1, h2]
            · refine Or.inr ⟨b, log₁, log₂, ?_, ?_⟩ <;>
                simp [scan_for_match, hl, hd, bind, Except.bind, h1, h2]
          · refine Or.inr ⟨true,
              [⟨location, l, waypoint_sq_dist location l⟩], [], ?_, ?_⟩ <;>
              simp [scan_for_match, hl, hd, bind, Except.bind]

/-- The outer loop's error, kept list and match count do not depend on
`verbose`; only the log does. -/
lemma radius_filter_loop_shape (radius : ℚ) (ws : List Waypoint) :
    (∃ e, radius_filter_loop true radius ws = .error e ∧
      radius_filter_loop false radius ws = .error e) ∨
    (∃ f m log₁ log₂, radius_filter_loop true radius ws = .ok (f, m, log₁) ∧
      radius_filter_loop false radius ws = .ok (f, m, log₂)) := by
  induction ws with
  | nil => exact Or.inr ⟨[], 0, [], [], rfl, rfl⟩
  | cons w rest ih =>
      cases hl : waypoint_location_tuple w with
      | error e =>
          refine Or.inl ⟨e, ?_, ?_⟩ <;>
            simp [radius_filter_loop, hl, bind, Except.bind]
      | ok l =>
          rcases scan_for_match_shape radius l rest with
            ⟨e, hs1, hs2⟩ | ⟨b, slog₁, slog₂, hs1, hs2⟩
          · refine Or.inl ⟨e, ?_, ?_⟩ <;>
              simp [radius_filter_loop, hl, hs1, hs2, bind, Except.bind]
          · rcases ih with ⟨e, h1, h2⟩ | ⟨f, m, log₁, log₂, h1, h2⟩
            · refine Or.inl ⟨e, ?_, ?_⟩ <;>
                simp [radius_filter_loop, hl, hs1, hs2, h1, h2, bind, Except.bind]
            · refine Or.inr ⟨if b then f else w :: f, (if b then 1 else 0) + m,
                slog₁ ++ log₁, slog₂ ++ log₂, ?_, ?_⟩ <;>
                simp [radius_filter_loop, hl, hs1, hs2, h1, h2, bind, Except.bind]

/-- The filtered collection returned by the whole pass does not depend on
`verbose`. -/
lemma radius_filter_pass_verbose_indep (radius : ℚ) (ws : List Waypoint) :
    (radius_filter_pass true radius ws).map (fun t => t.1) =
      (radius_filter_pass false radius ws).map (fun t => t.1) := by
  rcases radius_filter_loop_shape radius ws with
    ⟨e, h1, h2⟩ | ⟨f, m, log₁, log₂, h1, h2⟩
  · simp [radius_filter_pass, h1, h2, bind, Except.bind]
  · simp [radius_filter_pass, h1, h2, bind, Except.bind, Except.map]

/-- **C10.** The `--verbose` flag influences only the diagnostic log: the
radius deduplication pass keeps the same waypoints in the same order with
the flag on or off, and the whole pipeline's result is unchanged by it. -/
theorem verbose_noninterference (cfg : Config) (radius : ℚ)
    (ws : List Waypoint) :
    (radius_filter_pass true radius ws).map (fun t => t.1) =
      (radius_filter_pass false radius ws).map (fun t => t.1) ∧
    run_passes { cfg with verbose := true } ws =
      run_passes { cfg with verbose := false } ws := by
  refine ⟨radius_filter_pass_verbose_indep radius ws, ?_⟩
  unfold run_passes radius_stage box_stage radial_stage alpha_stage invert_stage
  cases hfr : cfg.filter_radius with
  | none => rfl
  | some r =>
      simp only [hfr]
      rw [radius_filter_pass_verbose_indep r ws]

/-! ## The radius-zero flag (C2) -/

/-- A zero squared distance forces the two locations to coincide. -/
lemma waypoint_sq_dist_eq_zero (l1 l2 : Location) :
    waypoint_sq_dist l1 l2 = 0 ↔ l1 = l2 := by
  unfold waypoint_sq_dist
  constructor
  · intro h
    have n1 := mul_self_nonneg (l2.1 - l1.1)
    have n2 := mul_self_nonneg (l2.2.1 - l1.2.1)
    have n3 := mul_self_nonneg (l2.2.2 - l1.2.2)
    have e1 : l2.1 - l1.1 = 0 := by nlinarith
    have e2 : l2.2.1 - l1.2.1 = 0 := by nlinarith
    have e3 : l2.2.2 - l1.2.2 = 0 := by nlinarith
    have : l1.1 = l2.1 := by omega
    have : l1.2.1 = l2.2.1 := by omega
    have : l1.2.2 = l2.2.2 := by omega
    rcases l1 with ⟨x1, y1, z1⟩
    rcases l2 with ⟨x2, y2, z2⟩
    simp_all
  · rintro rfl
    ring

/-- `{"name": "P", "location": {"x": 0, "y": 0, "z": 0}}`. -/
def waypointP : Waypoint :=
  [("name", .str "P"),
   ("location", .obj [("x", .num 0), ("y", .num 0), ("z", .num 0)])]

/-- `{"name": "Q", "location": {"x": 0, "y": 0, "z": 0}}`: coincides with
`waypointP`. -/
def waypointQ : Waypoint :=
  [("name", .str "Q"),
   ("location", .obj [("x", .num 0), ("y", .num 0), ("z", .num 0)])]

/-- Counterexample to C2: `--filter-radius 0` is not a no-op.  Because
`nargs=1` wraps the parsed radius in a list, the guard
`args.filter_radius != 0` compares a list with an int and is true even for
a given radius of `0`, so the pass runs and, at radius `0`, drops a
waypoint that has a strictly later waypoint at the identical location. -/
theorem radius_zero_flag_not_noop :
    radius_stage { filter_radius := some 0 } [waypointP, waypointQ] =
      .ok [waypointQ] ∧
    radius_stage { filter_radius := some 0 } [waypointP, waypointQ] ≠
      .ok [waypointP, waypointQ] := by
  have hP : waypoint_location_tuple waypointP = .ok (0, 0, 0) := rfl
  have hQ : waypoint_location_tuple waypointQ = .ok (0, 0, 0) := rfl
  have hd : dist_gt (0, 0, 0) (0, 0, 0) 0 = false := by
    norm_num [dist_gt, waypoint_sq_dist]
  have hd0 : dist_gt 0 0 0 = false := hd
  have hrun : radius_stage { filter_radius := some 0 } [waypointP, waypointQ] =
      .ok [waypointQ] := by
    simp [radius_stage, radius_filter_pass, radius_filter_loop, scan_for_match,
      hP, hQ, hd, hd0, bind, Except.bind, Except.map]
  refine ⟨hrun, ?_⟩
  rw [hrun]
  intro hcontra
  simp only [Except.ok.injEq] at hcontra
  have : waypointQ = waypointP := (List.cons.injEq _ _ _ _).mp hcontra |>.1
  simp [waypointP, waypointQ] at this

/-- **C2 (amended).** If `--filter-radius` is absent, the radius pass is a
no-op.  A present flag always runs the pass, even `--filter-radius 0`:
with radius `0` a waypoint is kept iff no strictly later waypoint lies at
the exact same location (Euclidean distance `≤ 0`, i.e. coincidence). -/
theorem radius_flag_unset_noop (cfg : Config) (ws : List Waypoint)
    (h : ∀ w ∈ ws, ∃ l, waypoint_location_tuple w = .ok l) :
    (cfg.filter_radius = none → radius_stage cfg ws = .ok ws) ∧
    (cfg.filter_radius = some 0 →
      radius_stage cfg ws = .ok (spec_kept 0 ws)) ∧
    (∀ w1 w2 l1 l2, waypoint_location_tuple w1 = .ok l1 →
      waypoint_location_tuple w2 = .ok l2 →
      (within_radius 0 w1 w2 = true ↔ l1 = l2)) := by
  refine ⟨?_, ?_, ?_⟩
  · intro h0
    simp [radius_stage, h0]
  · intro h0
    have := radius_filter_pass_spec cfg.verbose 0 ws h
    simpa [radius_stage, h0] using this
  · intro w1 w2 l1 l2 h1 h2
    rw [within_radius_iff 0 w1 w2 l1 l2 h1 h2]
    have hnn : (0 : ℝ) ≤ waypoint_distance l1 l2 := Real.sqrt_nonneg _
    constructor
    · intro hle
      have hz : waypoint_distance l1 l2 = 0 := le_antisymm (by simpa using hle) hnn
      have hsq : ((waypoint_sq_dist l1 l2 : ℤ) : ℝ) ≤ 0 := by
        rw [waypoint_distance] at hz
        exact_mod_cast Real.sqrt_eq_zero'.mp hz
      have hge : (0 : ℤ) ≤ waypoint_sq_dist l1 l2 := by
        unfold waypoint_sq_dist
        nlinarith [mul_self_nonneg (l2.1 - l1.1), mul_self_nonneg (l2.2.1 - l1.2.1),
          mul_self_nonneg (l2.2.2 - l1.2.2)]
      have : waypoint_sq_dist l1 l2 = 0 := le_antisymm (by exact_mod_cast hsq) hge
      exact (waypoint_sq_dist_eq_zero l1 l2).mp this
    · rintro rfl
      have : waypoint_sq_dist l1 l1 = 0 := (waypoint_sq_dist_eq_zero l1 l1).mpr rfl
      simp [waypoint_distance, this]

/-- Witness for the amended C2: with no flag the stage passes `[P, Q]`
through; with the flag set to `0` it keeps only the later coincident
waypoint `Q`. -/
theorem radius_flag_unset_noop_witness :
    (∀ w ∈ [waypointP, waypointQ], ∃ l, waypoint_location_tuple w = .ok l) ∧
    radius_stage { filter_radius := none } [waypointP, waypointQ] =
      .ok [waypointP, waypointQ] ∧
    radius_stage { filter_radius := some 0 } [waypointP, waypointQ] =
      .ok (spec_kept 0 [waypointP, waypointQ]) ∧
    spec_kept 0 [waypointP, waypointQ] = [waypointQ] := by
  have hP : waypoint_location_tuple waypointP = .ok (0, 0, 0) := rfl
  have hQ : waypoint_location_tuple waypointQ = .ok (0, 0, 0) := rfl
  have h : ∀ w ∈ [waypointP, waypointQ], ∃ l, waypoint_location_tuple w = .ok l := by
    intro w hw
    rcases List.mem_cons.mp hw with h1 | hw
    · exact ⟨(0, 0, 0), h1 ▸ hP⟩
    rcases List.mem_cons.mp hw with h2 | hw
    · exact ⟨(0, 0, 0), h2 ▸ hQ⟩
    · simp at hw
  have hd : dist_gt (0, 0, 0) (0, 0, 0) 0 = false := by
    norm_num [dist_gt, waypoint_sq_dist]
  have hspec : spec_kept 0 [waypointP, waypointQ] = [waypointQ] := by
    have hw2 : within_radius 0 waypointP waypointQ = true := by
      simp only [within_radius, within_radius_loc, hP, hQ, hd, Bool.not_false]
    simp [spec_kept, hw2]
  exact ⟨h, (radius_flag_unset_noop { filter_radius := none } [waypointP, waypointQ] h).1 rfl,
    (radius_flag_unset_noop { filter_radius := some 0 } [waypointP, waypointQ] h).2.1 rfl,
    hspec⟩

/-! ## Round trip with no flags (C7) -/

/-- The configuration with no optional flags. -/
def no_flags_config : Config := {}

/-- **C7.** With no optional flag enabled the pipeline is the identity on
the concatenation of the input files' arrays, and the written output is its
serialization: every waypoint passes through verbatim, in file order and
element order. -/
theorem no_flags_roundtrip (inputs : List (List Waypoint)) (prev : String) :
    run_passes no_flags_config (load_waypoints inputs) =
      .ok (load_waypoints inputs) ∧
    output_file_after_run no_flags_config inputs prev =
      json_dump (load_waypoints inputs) := by
  have h1 : run_passes no_flags_config (load_waypoints inputs) =
      .ok (load_waypoints inputs) := rfl
  exact ⟨h1, by simp [output_file_after_run, h1]⟩

/-! ## Output-file truncation at argument parsing (C3) -/

/-- `{"location": {"x": 0, "y": 0, "z": 0}}` with no `name` field. -/
def waypointNoName : Waypoint :=
  [("location", .obj [("x", .num 0), ("y", .num 0), ("z", .num 0)])]

/-- `{"name": "L"}` with no `location` field. -/
def waypointNoLoc : Waypoint :=
  [("name", .str "L")]

/-- Counterexample to C3: when a pass fails, no output is written — but the
output destination's prior state is **not** unchanged, because
`argparse.FileType('wt')` truncated the file at argument-parse time.  Here
the alphanumeric sort fails on a waypoint with no `name`, and the file that
held `"prior contents"` ends up empty. -/
theorem output_prior_contents_destroyed :
    run_passes { sort_alphanumeric := true } [waypointNoName] =
      .error (.keyError "name") ∧
    output_file_after_run { sort_alphanumeric := true } [[waypointNoName]]
      "prior contents" = "" ∧
    output_file_after_run { sort_alphanumeric := true } [[waypointNoName]]
      "prior contents" ≠ "prior contents" := by
  refine ⟨rfl, rfl, ?_⟩
  intro h
  have : ("" : String) = "prior contents" := by
    calc ("" : String) = output_file_after_run { sort_alphanumeric := true }
          [[waypointNoName]] "prior contents" := rfl
      _ = "prior contents" := h
  simp at this

/-- **C3 (amended).** On a failing run no waypoint data is written — the
output file is left as truncated at argument-parse time, i.e. empty, its
prior contents lost; the serialized collection is written only when every
pass succeeds. -/
theorem output_written_only_on_success (cfg : Config)
    (inputs : List (List Waypoint)) (prev : String) :
    (∀ e, run_passes cfg (load_waypoints inputs) = .error e →
      output_file_after_run cfg inputs prev = "") ∧
    (∀ ws, run_passes cfg (load_waypoints inputs) = .ok ws →
      output_file_after_run cfg inputs prev = json_dump ws) := by
  constructor
  · intro e he
    simp [output_file_after_run, he]
  · intro ws hws
    simp [output_file_after_run, hws]

/-- Witness for the amended C3: a failing box-filter run leaves the output
empty; a successful flagless run writes the serialized collection. -/
theorem output_written_only_on_success_witness :
    output_file_after_run { filter_box := some ((0, 0, 0), (2, 2, 2)) }
      [[waypointNoLoc]] "old" = "" ∧
    output_file_after_run no_flags_config [[waypointA]] "old" =
      json_dump [waypointA] :=
  ⟨(output_written_only_on_success { filter_box := some ((0, 0, 0), (2, 2, 2)) }
      [[waypointNoLoc]] "old").1 (.keyError "location") rfl,
   (output_written_only_on_success no_flags_config [[waypointA]] "old").2
      [waypointA] rfl⟩

/-! ## Missing fields abort the run; wellformed inputs succeed (C5) -/

/-- A waypoint with an unextractable location makes the radius loop fail. -/
lemma radius_filter_loop_err (verbose : Bool) (radius : ℚ) (ws : List Waypoint)
    (h : ∃ w ∈ ws, ∃ e, waypoint_location_tuple w = .error e) :
    ∃ e, radius_filter_loop verbose radius ws = .error e := by
  induction ws with
  | nil => simp at h
  | cons w rest ih =>
      obtain ⟨wbad, hmem, e, hbad⟩ := h
      cases hl : waypoint_location_tuple w with
      | error e' =>
          exact ⟨e', by simp [radius_filter_loop, hl, bind, Except.bind]⟩
      | ok l =>
          have hrest : ∃ w' ∈ rest, ∃ e, waypoint_location_tuple w' = .error e := by
            rcases List.mem_cons.mp hmem with h1 | h2
            · rw [h1] at hbad
              simp [hbad] at hl
            · exact ⟨wbad, h2, e, hbad⟩
          obtain ⟨e₂, hloop⟩ := ih hrest
          cases hs : scan_for_match verbose radius l rest with
          | error es =>
              exact ⟨es, by simp [radius_filter_loop, hl, hs, bind, Except.bind]⟩
          | ok p =>
              exact ⟨e₂, by simp [radius_filter_loop, hl, hs, hloop, bind, Except.bind]⟩

/-- The whole radius pass fails as soon as the loop does. -/
lemma radius_filter_pass_err (verbose : Bool) (radius : ℚ) (ws : List Waypoint)
    (h : ∃ w ∈ ws, ∃ e, waypoint_location_tuple w = .error e) :
    ∃ e, radius_filter_pass verbose radius ws = .error e := by
  obtain ⟨e, hloop⟩ := radius_filter_loop_err verbose radius ws h
  exact ⟨e, by simp [radius_filter_pass, hloop, bind, Except.bind]⟩

/-- A waypoint with an unextractable location makes the box filter fail. -/
lemma box_filter_pass_err (bound1 bound2 : Location) (ws : List Waypoint)
    (h : ∃ w ∈ ws, ∃ e, waypoint_location_tuple w = .error e) :
    ∃ e, box_filter_pass bound1 bound2 ws = .error e := by
  induction ws with
  | nil => simp at h
  | cons w rest ih =>
      obtain ⟨wbad, hmem, e, hbad⟩ := h
      cases hl : waypoint_location_tuple w with
      | error e' =>
          exact ⟨e', by simp [box_filter_pass, hl, bind, Except.bind]⟩
      | ok l =>
          have hrest : ∃ w' ∈ rest, ∃ e, waypoint_location_tuple w' = .error e := by
            rcases List.mem_cons.mp hmem with h1 | h2
            · rw [h1] at hbad
              simp [hbad] at hl
            · exact ⟨wbad, h2, e, hbad⟩
          obtain ⟨e₂, htail⟩ := ih hrest
          exact ⟨e₂, by simp [box_filter_pass, hl, htail, bind, Except.bind]⟩

/-- A waypoint with an unextractable location makes the radial key
extraction fail. -/
lemma radial_keyed_err (center : Location) (ws : List Waypoint)
    (h : ∃ w ∈ ws, ∃ e, waypoint_location_tuple w = .error e) :
    ∃ e, radial_keyed center ws = .error e := by
  induction ws with
  | nil => simp at h
  | cons w rest ih =>
      obtain ⟨wbad, hmem, e, hbad⟩ := h
      cases hl : waypoint_location_tuple w with
      | error e' =>
          exact ⟨e', by simp [radial_keyed, hl, bind, Except.bind]⟩
      | ok l =>
          have hrest : ∃ w' ∈ rest, ∃ e, waypoint_location_tuple w' = .error e := by
            rcases List.mem_cons.mp hmem with h1 | h2
            · rw [h1] at hbad
              simp [hbad] at hl
            · exact ⟨wbad, h2, e, hbad⟩
          obtain ⟨e₂, htail⟩ := ih hrest
          exact ⟨e₂, by simp [radial_keyed, hl, htail, bind, Except.bind]⟩

/-- The radial sort fails as soon as its key extraction does. -/
lemma radial_sort_pass_err (center : Location) (ws : List Waypoint)
    (h : ∃ w ∈ ws, ∃ e, waypoint_location_tuple w = .error e) :
    ∃ e, radial_sort_pass center ws = .error e := by
  obtain ⟨e, hk⟩ := radial_keyed_err center ws h
  exact ⟨e, by simp [radial_sort_pass, hk, bind, Except.bind]⟩

/-- A waypoint with an unextractable name makes the alphanumeric key
extraction fail. -/
lemma alpha_keyed_err (ws : List Waypoint)
    (h : ∃ w ∈ ws, ∃ e, waypoint_name w = .error e) :
    ∃ e, alpha_keyed ws = .error e := by
  induction ws with
  | nil => simp at h
  | cons w rest ih =>
      obtain ⟨wbad, hmem, e, hbad⟩ := h
      cases hn : waypoint_name w with
      | error e' =>
          exact ⟨e', by simp [alpha_keyed, hn, bind, Except.bind]⟩
      | ok name =>
          have hrest : ∃ w' ∈ rest, ∃ e, waypoint_name w' = .error e := by
            rcases List.mem_cons.mp hmem with h1 | h2
            · rw [h1] at hbad
              simp [hbad] at hn
            · exact ⟨wbad, h2, e, hbad⟩
          obtain ⟨e₂, htail⟩ := ih hrest
          exact ⟨e₂, by simp [alpha_keyed, hn, htail, bind, Except.bind]⟩

/-- The alphanumeric sort fails as soon as its key extraction does. -/
lemma alphanumeric_sort_pass_err (ws : List Waypoint)
    (h : ∃ w ∈ ws, ∃ e, waypoint_name w = .error e) :
    ∃ e, alphanumeric_sort_pass ws = .error e := by
  obtain ⟨e, hk⟩ := alpha_keyed_err ws h
  exact ⟨e, by simp [alphanumeric_sort_pass, hk, bind, Except.bind]⟩

/-- The spec's kept list is a subsequence of the input. -/
lemma spec_kept_sublist (radius : ℚ) (ws : List Waypoint) :
    List.Sublist (spec_kept radius ws) ws := by
  induction ws with
  | nil => simp [spec_kept]
  | cons w rest ih =>
      rw [spec_kept]
      by_cases hc : rest.any (fun w2 => within_radius radius w w2) = true
      · simp only [hc, if_true]
        exact ih.cons w
      · simp only [hc, if_false]
        exact ih.cons₂ w

/-- The radius stage succeeds on wellformed collections and keeps them
wellformed. -/
lemma radius_stage_ok (cfg : Config) (ws : List Waypoint)
    (h : ∀ w ∈ ws, WellFormed w) :
    ∃ ws', radius_stage cfg ws = .ok ws' ∧ ∀ w ∈ ws', WellFormed w := by
  cases hfr : cfg.filter_radius with
  | none => exact ⟨ws, by simp [radius_stage, hfr], h⟩
  | some r =>
      have hloc : ∀ w ∈ ws, ∃ l, waypoint_location_tuple w = .ok l :=
        fun w hw => (h w hw).2
      refine ⟨spec_kept r ws, ?_, ?_⟩
      · have := radius_filter_pass_spec cfg.verbose r ws hloc
        simpa [radius_stage, hfr] using this
      · intro w hw
        exact h w ((spec_kept_sublist r ws).mem hw)

/-- The box stage succeeds on wellformed collections and keeps them
wellformed. -/
lemma box_stage_ok (cfg : Config) (ws : List Waypoint)
    (h : ∀ w ∈ ws, WellFormed w) :
    ∃ ws', box_stage cfg ws = .ok ws' ∧ ∀ w ∈ ws', WellFormed w := by
  cases hfb : cfg.filter_box with
  | none => exact ⟨ws, by simp [box_stage, hfb], h⟩
  | some b =>
      have hloc : ∀ w ∈ ws, ∃ l, waypoint_location_tuple w = .ok l :=
        fun w hw => (h w hw).2
      refine ⟨ws.filter (box_pred b.1 b.2), ?_, ?_⟩
      · have := box_filter_pass_of_locs_ok b.1 b.2 ws hloc
        simp [box_stage, hfb, this]
      · intro w hw
        exact h w (List.mem_of_mem_filter hw)

/-- The radial sort stage succeeds on wellformed collections and keeps them
wellformed. -/
lemma radial_stage_ok (cfg : Config) (ws : List Waypoint)
    (h : ∀ w ∈ ws, WellFormed w) :
    ∃ ws', radial_stage cfg ws = .ok ws' ∧ ∀ w ∈ ws', WellFormed w := by
  cases hsr : cfg.sort_radial with
  | none => exact ⟨ws, by simp [radial_stage, hsr], h⟩
  | some center =>
      have hloc : ∀ w ∈ ws, ∃ l, waypoint_location_tuple w = .ok l :=
        fun w hw => (h w hw).2
      refine ⟨(stable_sort_by_key
          (ws.map (fun w => (radial_key center w, w)))).map (fun p => p.2), ?_, ?_⟩
      · simp [radial_stage, hsr, radial_sort_pass,
          radial_keyed_of_ok center ws hloc, bind, Except.bind]
      · intro w hw
        exact h w ((keyed_sort_perm (radial_key center) ws).mem_iff.mp hw)

/-- The alphanumeric sort stage succeeds on wellformed collections and keeps
them wellformed. -/
lemma alpha_stage_ok (cfg : Config) (ws : List Waypoint)
    (h : ∀ w ∈ ws, WellFormed w) :
    ∃ ws', alpha_stage cfg ws = .ok ws' ∧ ∀ w ∈ ws', WellFormed w := by
  by_cases hsa : cfg.sort_alphanumeric
  · have hname : ∀ w ∈ ws, ∃ s, waypoint_name w = .ok s :=
      fun w hw => (h w hw).1
    refine ⟨(stable_sort_by_key
        (ws.map (fun w => (name_key w, w)))).map (fun p => p.2), ?_, ?_⟩
    · simp [alpha_stage, hsa, alphanumeric_sort_pass,
        alpha_keyed_of_ok ws hname, bind, Except.bind]
    · intro w hw
      exact h w ((keyed_sort_perm name_key ws).mem_iff.mp hw)
  · exact ⟨ws, by simp [alpha_stage, hsa], h⟩

/-- The whole pipeline succeeds on wellformed collections. -/
lemma run_passes_ok_of_wellformed (cfg : Config) (ws : List Waypoint)
    (h : ∀ w ∈ ws, WellFormed w) :
    ∃ ws', run_passes cfg ws = .ok ws' := by
  obtain ⟨ws₁, h1, hw1⟩ := radius_stage_ok cfg ws h
  obtain ⟨ws₂, h2, hw2⟩ := box_stage_ok cfg ws₁ hw1
  obtain ⟨ws₃, h3, hw3⟩ := radial_stage_ok cfg ws₂ hw2
  obtain ⟨ws₄, h4, _⟩ := alpha_stage_ok cfg ws₃ hw3
  exact ⟨invert_stage cfg ws₄,
    by simp [run_passes, h1, h2, h3, h4, bind, Except.bind]⟩

/-- **C5.** A waypoint lacking a usable `location` aborts every enabled
spatial pass (radius dedup, box filter, radial sort) with a data error; one
lacking a usable `name` aborts the alphanumeric sort; conversely, a
collection of wellformed waypoints (string `name`, integer `x`/`y`/`z`
under `location`) makes the whole pipeline succeed for every
configuration. -/
theorem missing_field_aborts (verbose : Bool) (radius : ℚ)
    (bound1 bound2 center : Location) (cfg : Config) (ws : List Waypoint) :
    ((∃ w ∈ ws, ∃ e, waypoint_location_tuple w = .error e) →
      (∃ e, radius_filter_pass verbose radius ws = .error e) ∧
      (∃ e, box_filter_pass bound1 bound2 ws = .error e) ∧
      (∃ e, radial_sort_pass center ws = .error e)) ∧
    ((∃ w ∈ ws, ∃ e, waypoint_name w = .error e) →
      ∃ e, alphanumeric_sort_pass ws = .error e) ∧
    ((∀ w ∈ ws, WellFormed w) → ∃ ws', run_passes cfg ws = .ok ws') := by
  refine ⟨?_, ?_, ?_⟩
  · intro h
    exact ⟨radius_filter_pass_err verbose radius ws h,
      box_filter_pass_err bound1 bound2 ws h,
      radial_sort_pass_err center ws h⟩
  · intro h
    exact alphanumeric_sort_pass_err ws h
  · intro h
    exact run_passes_ok_of_wellformed cfg ws h

/-- The configuration with every optional flag enabled. -/
def all_flags_config : Config :=
  { verbose := true, filter_radius := some 1,
    filter_box := some ((-9, -9, -9), (9, 9, 9)),
    sort_radial := some (0, 0, 0), sort_alphanumeric := true,
    invert_sort := true }

/-- Witness for C5: each spatial pass fails on a waypoint with no
`location`, the alphanumeric sort fails on one with no `name`, and the whole
pipeline with every flag enabled succeeds on the wellformed `[A, B]`. -/
theorem missing_field_aborts_witness :
    (∃ e, radius_filter_pass false 1 [waypointNoLoc] = .error e) ∧
    (∃ e, box_filter_pass (0, 0, 0) (2, 2, 2) [waypointNoLoc] = .error e) ∧
    (∃ e, radial_sort_pass (0, 0, 0) [waypointNoLoc] = .error e) ∧
    (∃ e, alphanumeric_sort_pass [waypointNoName] = .error e) ∧
    (∃ ws', run_passes all_flags_config [waypointA, waypointB] = .ok ws') := by
  have hbadloc : ∃ w ∈ [waypointNoLoc], ∃ e, waypoint_location_tuple w = .error e :=
    ⟨waypointNoLoc, by simp, .keyError "location", rfl⟩
  have hbadname : ∃ w ∈ [waypointNoName], ∃ e, waypoint_name w = .error e :=
    ⟨waypointNoName, by simp, .keyError "name", rfl⟩
  have hwf : ∀ w ∈ [waypointA, waypointB], WellFormed w := by
    intro w hw
    rcases List.mem_cons.mp hw with h1 | hw
    · exact h1 ▸ ⟨⟨"A", rfl⟩, ⟨(0, 0, 0), rfl⟩⟩
    rcases List.mem_cons.mp hw with h2 | hw
    · exact h2 ▸ ⟨⟨"B", rfl⟩, ⟨(1, 0, 0), rfl⟩⟩
    · simp at hw
  obtain ⟨e1, e2, e3⟩ := (missing_field_aborts false 1 (0, 0, 0) (2, 2, 2)
    (0, 0, 0) all_flags_config [waypointNoLoc]).1 hbadloc
  have e4 := (missing_field_aborts false 1 (0, 0, 0) (2, 2, 2) (0, 0, 0)
    all_flags_config [waypointNoName]).2.1 hbadname
  have e5 := (missing_field_aborts false 1 (0, 0, 0) (2, 2, 2) (0, 0, 0)
    all_flags_config [waypointA, waypointB]).2.2 hwf
  exact ⟨e1, e2, e3, e4, e5⟩

end WaypointUtils
